import Mathlib

/-!
Verification of the repo-manager reconciliation engine.

This file shallowly embeds the logic of src/repo-manager.py:
configuration field resolution (Repo._get_field), the secret/variable
reconciliation (Repo.update_environment together with
Repo.add_environment_values and Repo.remove_environment_value), and the
team-permission reconciliation (Repo.update_permissions).

Python dictionaries are modelled as association lists with a first-match
lookup (dget).  The remote side effects (gh api / gh secret set calls)
are modelled as a trace of RemoteCall values recorded in the order the
code issues them; additionally, an Event trace interleaves each
per-name classification with the remote calls it triggers, so that
temporal claims ("X happens before Y") can be stated over the trace.
-/

/-- Model of the Python dict lookup d.get(k): first binding of k in the
association list, if any. -/
def dget {α : Type} (xs : List (String × α)) (k : String) : Option α :=
  match xs with
  | [] => none
  | p :: rest => if p.1 = k then some p.2 else dget rest k

/-- Values a configuration field can take: a scalar string or a
collection (a list, or a string-to-string mapping such as the secrets,
variables and permissions fields). -/
inductive FieldValue where
  | str (s : String)
  | list (xs : List String)
  | dict (kvs : List (String × String))
deriving DecidableEq, Repr

/-- Embedding of Repo._get_field (src/repo-manager.py lines 27-32):
field_value = repo.get(field_name, common.get(field_name, None)); raise
ValueError if the result is None.  Failure is modelled with Except. -/
def get_field (repo common : List (String × FieldValue)) (field_name : String) :
    Except String FieldValue :=
  match dget repo field_name with
  | some v => Except.ok v
  | none =>
    match dget common field_name with
    | some v => Except.ok v
    | none => Except.error ("No value found for field " ++ field_name)

/-- Embedding of the Environment enum (lines 6-8). -/
inductive Environment where
  | secret
  | «variable»
deriving DecidableEq, Repr

/-- Embedding of Environment.value ("secret" / "variable"). -/
def Environment.value : Environment → String
  | Environment.secret => "secret"
  | Environment.«variable» => "variable"

/-- The five dispositions a name can receive in a reconciliation run. -/
inductive Disposition where
  | Added
  | Edited
  | Overwritten
  | Removed
  | Unchanged
deriving DecidableEq, Repr

/-- The list of all five dispositions. -/
def allDispositions : List Disposition :=
  [Disposition.Added, Disposition.Edited, Disposition.Overwritten,
   Disposition.Removed, Disposition.Unchanged]

/-- Remote mutating calls the code can issue through the gh CLI. -/
inductive RemoteCall where
  | removeEnvironmentValue (env : Environment) (name : String)
  | setValues (env : Environment) (values : List (String × String))
  | addPermission (team : String) (level : String)
  | removePermission (team : String)
deriving DecidableEq, Repr

/-- Trace events: the classification of one name, or a remote call. -/
inductive Event where
  | classified (name : String) (d : Disposition)
  | call (c : RemoteCall)
deriving DecidableEq, Repr

/-- State accumulated by the loop of Repo.update_environment (lines
52-78): the five report strings, the to_add dict, plus the trace of
remote calls and the full event trace (instrumentation). -/
structure EnvState where
  overwritten : String
  edited : String
  added : String
  removed : String
  unchanged : String
  to_add : List (String × String)
  calls : List RemoteCall
  events : List Event
deriving DecidableEq, Repr

/-- The initial, empty loop state. -/
def EnvState.empty : EnvState := ⟨"", "", "", "", "", [], [], []⟩

/-- Component-wise concatenation of two EnvStates. -/
def EnvState.append (a b : EnvState) : EnvState :=
  ⟨a.overwritten ++ b.overwritten, a.edited ++ b.edited, a.added ++ b.added,
   a.removed ++ b.removed, a.unchanged ++ b.unchanged, a.to_add ++ b.to_add,
   a.calls ++ b.calls, a.events ++ b.events⟩

/-- Rendering of a desired value in the report: variables print the
literal value, secrets print the marker (the conditional expression on
lines 66 and 71). -/
def envLineShown (env : Environment) (v : String) : String :=
  if env = Environment.«variable» then v else "***"

/-- One iteration of the loop on lines 58-75 of update_environment, for
one value_name.  environment_data is the desired mapping from the
config, existing_data the fetched remote snapshot. -/
def updateEnvironmentStep (env : Environment)
    (environment_data existing_data : List (String × String))
    (st : EnvState) (value_name : String) : EnvState :=
  match dget existing_data value_name, dget environment_data value_name with
  | some ev, some cv =>
    if ev = "***" then
      { st with
        overwritten := st.overwritten ++ "    " ++ value_name ++ ": *** => ***\n",
        to_add := st.to_add ++ [(value_name, cv)],
        events := st.events ++ [Event.classified value_name Disposition.Overwritten] }
    else if ev ≠ cv then
      { st with
        edited := st.edited ++ "    " ++ value_name ++ ": " ++ ev ++ " => "
                    ++ envLineShown env cv ++ "\n",
        to_add := st.to_add ++ [(value_name, cv)],
        events := st.events ++ [Event.classified value_name Disposition.Edited] }
    else
      { st with
        unchanged := st.unchanged ++ "    " ++ value_name ++ ": " ++ ev ++ "\n",
        events := st.events ++ [Event.classified value_name Disposition.Unchanged] }
  | none, some cv =>
    { st with
      added := st.added ++ "    " ++ value_name ++ ": " ++ envLineShown env cv ++ "\n",
      to_add := st.to_add ++ [(value_name, cv)],
      events := st.events ++ [Event.classified value_name Disposition.Added] }
  | some ev, none =>
    { st with
      removed := st.removed ++ "    " ++ value_name ++ ": " ++ ev ++ "\n",
      calls := st.calls ++ [RemoteCall.removeEnvironmentValue env value_name],
      events := st.events ++ [Event.classified value_name Disposition.Removed,
                              Event.call (RemoteCall.removeEnvironmentValue env value_name)] }
  | none, none => st

/-- Embedding of Repo.add_environment_values (lines 107-129) as the
remote calls it issues: nothing when the mapping is empty (the early
return on lines 112-113), otherwise one single bulk set call carrying
every key-value pair. -/
def addEnvironmentValues (env : Environment) (values : List (String × String)) :
    List RemoteCall :=
  if values = [] then [] else [RemoteCall.setValues env values]

/-- The classification loop of update_environment, folded over an
enumeration all_data of the union of names (line 50 and lines 58-75). -/
def envLoop (env : Environment)
    (environment_data existing_data : List (String × String))
    (all_data : List String) : EnvState :=
  List.foldl (updateEnvironmentStep env environment_data existing_data)
    EnvState.empty all_data

/-- Final step of update_environment (lines 77-78): if to_add is
non-empty, issue the bulk set call through add_environment_values. -/
def updateEnvironmentFinish (env : Environment) (st : EnvState) : EnvState :=
  if st.to_add = [] then st
  else
    { st with
      calls := st.calls ++ addEnvironmentValues env st.to_add,
      events := st.events ++ (addEnvironmentValues env st.to_add).map Event.call }

/-- Embedding of Repo.update_environment (lines 34-90): run the
classification loop over all_data, then, if to_add is non-empty, issue
the bulk set call through add_environment_values (lines 77-78). -/
def updateEnvironment (env : Environment)
    (environment_data existing_data : List (String × String))
    (all_data : List String) : EnvState :=
  updateEnvironmentFinish env (envLoop env environment_data existing_data all_data)

/-- Embedding of the fetched snapshot construction on line 48:
existing_data maps each returned name to its value, defaulting to the
marker when the API response carries no value (always the case for
secrets). -/
def fetchedData (raw : List (String × Option String)) : List (String × String) :=
  raw.map (fun p => (p.1, p.2.getD "***"))

/-- Embedding of the report printed on lines 80-90: the header followed
by each non-empty bucket. -/
def environmentReport (env : Environment) (st : EnvState) : String :=
  env.value.capitalize ++ "s:\n"
  ++ (if st.overwritten ≠ "" then "  Overwritten:\n" ++ st.overwritten else "")
  ++ (if st.edited ≠ "" then "  Edited:\n" ++ st.edited else "")
  ++ (if st.added ≠ "" then "  Added:\n" ++ st.added else "")
  ++ (if st.removed ≠ "" then "  Removed:\n" ++ st.removed else "")
  ++ (if st.unchanged ≠ "" then "  Unchanged:\n" ++ st.unchanged else "")

/-- State accumulated by the loop of Repo.update_permissions (lines
220-239). -/
structure PermState where
  edited : String
  added : String
  removed : String
  unchanged : String
  calls : List RemoteCall
  events : List Event
deriving DecidableEq, Repr

/-- The initial, empty permissions loop state. -/
def PermState.empty : PermState := ⟨"", "", "", "", [], []⟩

/-- Component-wise concatenation of two PermStates. -/
def PermState.append (a b : PermState) : PermState :=
  ⟨a.edited ++ b.edited, a.added ++ b.added, a.removed ++ b.removed,
   a.unchanged ++ b.unchanged, a.calls ++ b.calls, a.events ++ b.events⟩

/-- One iteration of the loop on lines 225-239 of update_permissions,
for one team.  permissions is the desired mapping, existing_perms the
fetched remote snapshot. -/
def updatePermissionsStep (permissions existing_perms : List (String × String))
    (st : PermState) (team : String) : PermState :=
  match dget existing_perms team, dget permissions team with
  | some ep, some dp =>
    if ep ≠ dp then
      { st with
        edited := st.edited ++ "    " ++ team ++ ": " ++ ep ++ " => " ++ dp ++ "\n",
        calls := st.calls ++ [RemoteCall.addPermission team dp],
        events := st.events ++ [Event.classified team Disposition.Edited,
                                Event.call (RemoteCall.addPermission team dp)] }
    else
      { st with
        unchanged := st.unchanged ++ "    " ++ team ++ ": " ++ ep ++ "\n",
        events := st.events ++ [Event.classified team Disposition.Unchanged] }
  | none, some dp =>
    { st with
      added := st.added ++ "    " ++ team ++ ": " ++ dp ++ "\n",
      calls := st.calls ++ [RemoteCall.addPermission team dp],
      events := st.events ++ [Event.classified team Disposition.Added,
                              Event.call (RemoteCall.addPermission team dp)] }
  | some ep, none =>
    { st with
      removed := st.removed ++ "    " ++ team ++ ": " ++ ep ++ "\n",
      calls := st.calls ++ [RemoteCall.removePermission team],
      events := st.events ++ [Event.classified team Disposition.Removed,
                              Event.call (RemoteCall.removePermission team)] }
  | none, none => st

/-- Embedding of Repo.update_permissions (lines 208-248): the
classification loop folded over an enumeration all_teams of the union
of team slugs (line 220). -/
def updatePermissions (permissions existing_perms : List (String × String))
    (all_teams : List String) : PermState :=
  List.foldl (updatePermissionsStep permissions existing_perms)
    PermState.empty all_teams

/-- Per-name disposition implied by the branch structure of
update_environment lines 58-75, factored out of the loop body: none
when the name occurs on neither side. -/
def classifyName (environment_data existing_data : List (String × String))
    (n : String) : Option Disposition :=
  match dget existing_data n, dget environment_data n with
  | some ev, some cv =>
    if ev = "***" then some Disposition.Overwritten
    else if ev ≠ cv then some Disposition.Edited
    else some Disposition.Unchanged
  | none, some _ => some Disposition.Added
  | some _, none => some Disposition.Removed
  | none, none => none

/-- Per-team disposition implied by the branch structure of
update_permissions lines 225-239. -/
def classifyTeam (permissions existing_perms : List (String × String))
    (t : String) : Option Disposition :=
  match dget existing_perms t, dget permissions t with
  | some ep, some dp =>
    if ep ≠ dp then some Disposition.Edited else some Disposition.Unchanged
  | none, some _ => some Disposition.Added
  | some _, none => some Disposition.Removed
  | none, none => none

/-- Names classified with disposition d in a trace, in trace order. -/
def classifiedNames (evts : List Event) (d : Disposition) : List String :=
  evts.filterMap (fun e =>
    match e with
    | Event.classified n d2 => if d2 = d then some n else none
    | Event.call _ => none)

/-- Whether a remote call is the bulk set call. -/
def RemoteCall.isSet : RemoteCall → Bool
  | RemoteCall.setValues _ _ => true
  | _ => false

/-- Whether a remote call is a per-name environment value removal. -/
def RemoteCall.isRemoveValue : RemoteCall → Bool
  | RemoteCall.removeEnvironmentValue _ _ => true
  | _ => false

/-- Whether an event is a classification event. -/
def Event.isClassified : Event → Bool
  | Event.classified _ _ => true
  | Event.call _ => false

/-- Whether an event is a remote-call event. -/
def Event.isCall : Event → Bool
  | Event.classified _ _ => false
  | Event.call _ => true

/-- Whether an event is the bulk set call. -/
def Event.isSetCallEvent : Event → Bool
  | Event.call (RemoteCall.setValues _ _) => true
  | _ => false

/-- True when some classification event occurs strictly after a bulk
set call in the trace. -/
def classifiedAfterSetCall : List Event → Bool
  | [] => false
  | e :: rest =>
    (e.isSetCallEvent && rest.any Event.isClassified) || classifiedAfterSetCall rest

/-- True when some classification event occurs strictly after any
remote call in the trace. -/
def classifiedAfterAnyCall : List Event → Bool
  | [] => false
  | e :: rest =>
    (e.isCall && rest.any Event.isClassified) || classifiedAfterAnyCall rest

/-- Whether a remote call concerns the given name. -/
def callForName (n : String) : RemoteCall → Bool
  | RemoteCall.removeEnvironmentValue _ m => m = n
  | RemoteCall.setValues _ _ => false
  | RemoteCall.addPermission t _ => t = n
  | RemoteCall.removePermission t => t = n

/-- Well-formedness of one per-name trace block: the name's
classification, immediately followed by the remote call it triggers,
if any.  Any other shape is rejected. -/
def permBlockOk : List Event → Bool
  | [] => true
  | [Event.classified _ _] => true
  | [Event.classified n _, Event.call c] => callForName n c
  | _ => false

/-- The trace block one team contributes to the update_permissions
event trace. -/
def permEventsOf (permissions existing_perms : List (String × String))
    (t : String) : List Event :=
  (updatePermissionsStep permissions existing_perms PermState.empty t).events

/-- True when no environment-value removal call occurs after a bulk set
call in the call list. -/
def noRemoveAfterSet : List RemoteCall → Bool
  | [] => true
  | c :: rest =>
    (!RemoteCall.isSet c || rest.all (fun c2 => !RemoteCall.isRemoveValue c2))
      && noRemoveAfterSet rest

/-- Configured mapping with every value replaced by the opaque marker. -/
def redactValues (xs : List (String × String)) : List (String × String) :=
  xs.map (fun p => (p.1, "***"))

/-- The to_add entry a name contributes, if its disposition makes it a
changed entry (Added, Edited or Overwritten). -/
def changedEntry (environment_data existing_data : List (String × String))
    (m : String) : Option (String × String) :=
  match classifyName environment_data existing_data m, dget environment_data m with
  | some Disposition.Added, some cv => some (m, cv)
  | some Disposition.Edited, some cv => some (m, cv)
  | some Disposition.Overwritten, some cv => some (m, cv)
  | _, _ => none

/-- The remote calls one team contributes in update_permissions. -/
def permCallOf (permissions existing_perms : List (String × String))
    (t : String) : List RemoteCall :=
  match classifyTeam permissions existing_perms t, dget permissions t with
  | some Disposition.Edited, some dp => [RemoteCall.addPermission t dp]
  | some Disposition.Added, some dp => [RemoteCall.addPermission t dp]
  | some Disposition.Removed, _ => [RemoteCall.removePermission t]
  | _, _ => []

/-- The five report strings of an environment reconciliation state. -/
def EnvState.reportFields (st : EnvState) : String × String × String × String × String :=
  (st.overwritten, st.edited, st.added, st.removed, st.unchanged)

/-! Basic lemmas about the dictionary model. -/

/-- A successful lookup returns a binding of the list. -/
theorem dget_mem {α : Type} {xs : List (String × α)} {k : String} {v : α}
    (h : dget xs k = some v) : (k, v) ∈ xs := by
  induction xs with
  | nil => simp [dget] at h
  | cons p rest ih =>
    rw [dget] at h
    split at h
    · next hp =>
        have hv := Option.some.inj h
        subst hv
        subst hp
        exact List.mem_cons_self _ _
    · exact List.mem_cons_of_mem _ (ih h)

/-- Lookup success depends only on the key list. -/
theorem dget_isSome_congr {α β : Type} :
    ∀ (xs : List (String × α)) (ys : List (String × β)),
      xs.map Prod.fst = ys.map Prod.fst →
      ∀ k, (dget xs k).isSome = (dget ys k).isSome := by
  intro xs
  induction xs with
  | nil =>
    intro ys h k
    cases ys with
    | nil => rfl
    | cons q t => simp at h
  | cons p rest ih =>
    intro ys h k
    cases ys with
    | nil => simp at h
    | cons q t =>
      simp only [List.map_cons, List.cons.injEq] at h
      rw [dget, dget, h.1]
      by_cases hk : q.1 = k
      · simp [hk]
      · simp [hk, ih t h.2 k]

/-- Every disposition is listed in allDispositions. -/
theorem mem_allDispositions (d : Disposition) : d ∈ allDispositions := by
  cases d <;> simp [allDispositions]

/-! Homomorphism structure of the update_environment loop. -/

/-- Appending the empty state on the right is the identity. -/
theorem envAppend_empty_right (a : EnvState) : a.append EnvState.empty = a := by
  cases a
  simp [EnvState.append, EnvState.empty, String.append_empty]

/-- State concatenation is associative. -/
theorem envAppend_assoc (a b c : EnvState) :
    (a.append b).append c = a.append (b.append c) := by
  cases a; cases b; cases c
  simp [EnvState.append, String.append_assoc]

/-- One loop iteration only appends to the state: its effect on an
arbitrary state is its effect on the empty state, concatenated. -/
theorem envStep_append (env : Environment) (cfg ex : List (String × String))
    (st : EnvState) (n : String) :
    updateEnvironmentStep env cfg ex st n
      = st.append (updateEnvironmentStep env cfg ex EnvState.empty n) := by
  unfold updateEnvironmentStep
  cases hex : dget ex n with
  | none =>
    cases hcf : dget cfg n with
    | none => simp [envAppend_empty_right]
    | some cv =>
      cases st
      simp [EnvState.append, EnvState.empty, String.append_empty, String.empty_append,
            String.append_assoc]
  | some ev =>
    cases hcf : dget cfg n with
    | none =>
      cases st
      simp [EnvState.append, EnvState.empty, String.append_empty, String.empty_append,
            String.append_assoc]
    | some cv =>
      by_cases h1 : ev = "***"
      · cases st
        simp [h1, EnvState.append, EnvState.empty, String.append_empty, String.empty_append,
              String.append_assoc]
      · by_cases h2 : ev ≠ cv
        · cases st
          simp [h1, h2, EnvState.append, EnvState.empty, String.append_empty,
                String.empty_append, String.append_assoc]
        · cases st
          simp [h1, h2, EnvState.append, EnvState.empty, String.append_empty,
                String.empty_append, String.append_assoc]

/-- Folding the loop from any starting state decomposes as that state
followed by the loop run from the empty state. -/
theorem envLoop_foldl (env : Environment) (cfg ex : List (String × String))
    (ns : List String) :
    ∀ st : EnvState,
      List.foldl (updateEnvironmentStep env cfg ex) st ns
        = st.append (envLoop env cfg ex ns) := by
  induction ns with
  | nil =>
    intro st
    simp [envLoop, envAppend_empty_right]
  | cons n ns ih =>
    intro st
    have h1 : List.foldl (updateEnvironmentStep env cfg ex) st (n :: ns)
        = List.foldl (updateEnvironmentStep env cfg ex)
            (updateEnvironmentStep env cfg ex st n) ns := rfl
    have h2 : envLoop env cfg ex (n :: ns)
        = List.foldl (updateEnvironmentStep env cfg ex)
            (updateEnvironmentStep env cfg ex EnvState.empty n) ns := rfl
    rw [h1, ih, h2, ih, envStep_append, envAppend_assoc]

/-- Cons decomposition of the update_environment loop. -/
theorem envLoop_cons (env : Environment) (cfg ex : List (String × String))
    (n : String) (ns : List String) :
    envLoop env cfg ex (n :: ns)
      = (updateEnvironmentStep env cfg ex EnvState.empty n).append
          (envLoop env cfg ex ns) := by
  have h2 : envLoop env cfg ex (n :: ns)
      = List.foldl (updateEnvironmentStep env cfg ex)
          (updateEnvironmentStep env cfg ex EnvState.empty n) ns := rfl
  rw [h2, envLoop_foldl]

/-! Characterization of the per-name contributions of the loop. -/

/-- classifiedNames distributes over trace concatenation. -/
theorem classifiedNames_append (l1 l2 : List Event) (d : Disposition) :
    classifiedNames (l1 ++ l2) d = classifiedNames l1 d ++ classifiedNames l2 d := by
  simp [classifiedNames, List.filterMap_append]

/-- Call events contribute nothing to classifiedNames. -/
theorem classifiedNames_map_call (cs : List RemoteCall) (d : Disposition) :
    classifiedNames (cs.map Event.call) d = [] := by
  induction cs with
  | nil => rfl
  | cons c cs ih => simp [classifiedNames]

/-- The names one loop iteration classifies with disposition d. -/
theorem envStep_classifiedNames (env : Environment) (cfg ex : List (String × String))
    (n : String) (d : Disposition) :
    classifiedNames (updateEnvironmentStep env cfg ex EnvState.empty n).events d
      = if classifyName cfg ex n = some d then [n] else [] := by
  unfold updateEnvironmentStep classifyName
  cases hex : dget ex n with
  | none =>
    cases hcf : dget cfg n with
    | none => simp [EnvState.empty, classifiedNames]
    | some cv =>
      by_cases hd : Disposition.Added = d <;>
        simp [hd, EnvState.empty, classifiedNames, List.filterMap]
  | some ev =>
    cases hcf : dget cfg n with
    | none =>
      by_cases hd : Disposition.Removed = d <;>
        simp [hd, EnvState.empty, classifiedNames, List.filterMap]
    | some cv =>
      by_cases h1 : ev = "***"
      · by_cases hd : Disposition.Overwritten = d <;>
          simp [h1, hd, EnvState.empty, classifiedNames, List.filterMap]
      · by_cases h2 : ev ≠ cv
        · by_cases hd : Disposition.Edited = d <;>
            simp [h1, h2, hd, EnvState.empty, classifiedNames, List.filterMap]
        · by_cases hd : Disposition.Unchanged = d <;>
            simp [h1, h2, hd, EnvState.empty, classifiedNames, List.filterMap]

/-- The remote calls one loop iteration issues: exactly the removal of
a name classified Removed. -/
theorem envStep_calls (env : Environment) (cfg ex : List (String × String))
    (n : String) :
    (updateEnvironmentStep env cfg ex EnvState.empty n).calls
      = if classifyName cfg ex n = some Disposition.Removed
          then [RemoteCall.removeEnvironmentValue env n] else [] := by
  unfold updateEnvironmentStep classifyName
  cases hex : dget ex n with
  | none =>
    cases hcf : dget cfg n with
    | none => simp [EnvState.empty]
    | some cv => simp [EnvState.empty]
  | some ev =>
    cases hcf : dget cfg n with
    | none => simp [EnvState.empty]
    | some cv =>
      by_cases h1 : ev = "***"
      · simp [h1, EnvState.empty]
      · by_cases h2 : ev ≠ cv
        · simp [h1, h2, EnvState.empty]
        · simp [h1, h2, EnvState.empty]

/-- The to_add entry one loop iteration contributes. -/
theorem envStep_to_add (env : Environment) (cfg ex : List (String × String))
    (n : String) :
    (updateEnvironmentStep env cfg ex EnvState.empty n).to_add
      = (changedEntry cfg ex n).toList := by
  unfold updateEnvironmentStep changedEntry classifyName
  cases hex : dget ex n with
  | none =>
    cases hcf : dget cfg n with
    | none => simp [EnvState.empty]
    | some cv => simp [EnvState.empty]
  | some ev =>
    cases hcf : dget cfg n with
    | none => simp [EnvState.empty]
    | some cv =>
      by_cases h1 : ev = "***"
      · simp [h1, EnvState.empty]
      · by_cases h2 : ev ≠ cv
        · simp [h1, h2, EnvState.empty]
        · simp [h1, h2, EnvState.empty]

/-- No loop iteration emits a bulk set call event. -/
theorem envStep_events_no_set (env : Environment) (cfg ex : List (String × String))
    (n : String) :
    ∀ e ∈ (updateEnvironmentStep env cfg ex EnvState.empty n).events,
      Event.isSetCallEvent e = false := by
  unfold updateEnvironmentStep
  cases hex : dget ex n with
  | none =>
    cases hcf : dget cfg n with
    | none => simp [EnvState.empty]
    | some cv => simp [EnvState.empty, Event.isSetCallEvent]
  | some ev =>
    cases hcf : dget cfg n with
    | none =>
      simp [EnvState.empty, Event.isSetCallEvent]
    | some cv =>
      by_cases h1 : ev = "***"
      · simp [h1, EnvState.empty, Event.isSetCallEvent]
      · by_cases h2 : ev ≠ cv
        · simp [h1, h2, EnvState.empty, Event.isSetCallEvent]
        · simp [h1, h2, EnvState.empty, Event.isSetCallEvent]

/-! Loop-level equations for update_environment. -/

/-- The names the loop classifies with disposition d, in order. -/
theorem envLoop_classifiedNames (env : Environment) (cfg ex : List (String × String))
    (ns : List String) (d : Disposition) :
    classifiedNames (envLoop env cfg ex ns).events d
      = ns.filter (fun m => decide (classifyName cfg ex m = some d)) := by
  induction ns with
  | nil => rfl
  | cons m ns ih =>
    rw [envLoop_cons]
    show classifiedNames (_ ++ _) d = _
    rw [classifiedNames_append, envStep_classifiedNames, ih, List.filter_cons]
    by_cases hm : classifyName cfg ex m = some d <;> simp [hm]

/-- The remote calls of the loop: one removal per name classified
Removed, in order. -/
theorem envLoop_calls (env : Environment) (cfg ex : List (String × String))
    (ns : List String) :
    (envLoop env cfg ex ns).calls
      = (ns.filter (fun m => decide (classifyName cfg ex m = some Disposition.Removed))).map
          (RemoteCall.removeEnvironmentValue env) := by
  induction ns with
  | nil => rfl
  | cons m ns ih =>
    rw [envLoop_cons]
    show (updateEnvironmentStep env cfg ex EnvState.empty m).calls ++ _ = _
    rw [envStep_calls, ih, List.filter_cons]
    by_cases hm : classifyName cfg ex m = some Disposition.Removed <;> simp [hm]

/-- The to_add mapping of the loop: the changed entries, in order. -/
theorem envLoop_to_add (env : Environment) (cfg ex : List (String × String))
    (ns : List String) :
    (envLoop env cfg ex ns).to_add = ns.filterMap (changedEntry cfg ex) := by
  induction ns with
  | nil => rfl
  | cons m ns ih =>
    rw [envLoop_cons]
    show (updateEnvironmentStep env cfg ex EnvState.empty m).to_add ++ _ = _
    rw [envStep_to_add, ih, List.filterMap_cons]
    cases changedEntry cfg ex m <;> simp

/-- No event of the loop is a bulk set call. -/
theorem envLoop_events_no_set (env : Environment) (cfg ex : List (String × String))
    (ns : List String) :
    ∀ e ∈ (envLoop env cfg ex ns).events, Event.isSetCallEvent e = false := by
  induction ns with
  | nil => intro e he; simp [envLoop, EnvState.empty] at he
  | cons m ns ih =>
    rw [envLoop_cons]
    intro e he
    show Event.isSetCallEvent e = false
    have : e ∈ (updateEnvironmentStep env cfg ex EnvState.empty m).events
        ∨ e ∈ (envLoop env cfg ex ns).events := by
      simpa [EnvState.append] using List.mem_append.mp he
    cases this with
    | inl h => exact envStep_events_no_set env cfg ex m e h
    | inr h => exact ih e h

/-! Projections of the full update_environment run. -/

/-- The final bulk set does not change to_add. -/
theorem updateEnvironment_to_add (env : Environment) (cfg ex : List (String × String))
    (ns : List String) :
    (updateEnvironment env cfg ex ns).to_add = (envLoop env cfg ex ns).to_add := by
  unfold updateEnvironment updateEnvironmentFinish
  split <;> rfl

/-- The calls of a full run: the loop's removals followed by the bulk
set (which is absent when to_add is empty). -/
theorem updateEnvironment_calls (env : Environment) (cfg ex : List (String × String))
    (ns : List String) :
    (updateEnvironment env cfg ex ns).calls
      = (envLoop env cfg ex ns).calls
          ++ addEnvironmentValues env (envLoop env cfg ex ns).to_add := by
  unfold updateEnvironment updateEnvironmentFinish
  split
  · next h => simp [addEnvironmentValues, h]
  · rfl

/-- The events of a full run: the loop's events followed by the bulk
set call event, when present. -/
theorem updateEnvironment_events (env : Environment) (cfg ex : List (String × String))
    (ns : List String) :
    (updateEnvironment env cfg ex ns).events
      = (envLoop env cfg ex ns).events
          ++ (addEnvironmentValues env (envLoop env cfg ex ns).to_add).map Event.call := by
  unfold updateEnvironment updateEnvironmentFinish
  split
  · next h => simp [addEnvironmentValues, h]
  · rfl

/-- The final bulk set does not change the report strings. -/
theorem updateEnvironment_reportFields (env : Environment)
    (cfg ex : List (String × String)) (ns : List String) :
    (updateEnvironment env cfg ex ns).reportFields
      = (envLoop env cfg ex ns).reportFields := by
  unfold updateEnvironment updateEnvironmentFinish
  split <;> rfl

/-- Classified names of a full run coincide with those of the loop. -/
theorem updateEnvironment_classifiedNames (env : Environment)
    (cfg ex : List (String × String)) (ns : List String) (d : Disposition) :
    classifiedNames (updateEnvironment env cfg ex ns).events d
      = ns.filter (fun m => decide (classifyName cfg ex m = some d)) := by
  rw [updateEnvironment_events, classifiedNames_append, classifiedNames_map_call,
      envLoop_classifiedNames]
  simp

/-! Homomorphism structure of the update_permissions loop. -/

/-- Appending the empty permissions state on the right is the identity. -/
theorem permAppend_empty_right (a : PermState) : a.append PermState.empty = a := by
  cases a
  simp [PermState.append, PermState.empty, String.append_empty]

/-- Permissions state concatenation is associative. -/
theorem permAppend_assoc (a b c : PermState) :
    (a.append b).append c = a.append (b.append c) := by
  cases a; cases b; cases c
  simp [PermState.append, String.append_assoc]

/-- One permissions loop iteration only appends to the state. -/
theorem permStep_append (perms eperms : List (String × String))
    (st : PermState) (t : String) :
    updatePermissionsStep perms eperms st t
      = st.append (updatePermissionsStep perms eperms PermState.empty t) := by
  unfold updatePermissionsStep
  cases hex : dget eperms t with
  | none =>
    cases hcf : dget perms t with
    | none => simp [permAppend_empty_right]
    | some dp =>
      cases st
      simp [PermState.append, PermState.empty, String.append_empty, String.empty_append,
            String.append_assoc]
  | some ep =>
    cases hcf : dget perms t with
    | none =>
      cases st
      simp [PermState.append, PermState.empty, String.append_empty, String.empty_append,
            String.append_assoc]
    | some dp =>
      by_cases h1 : ep ≠ dp
      · cases st
        simp [h1, PermState.append, PermState.empty, String.append_empty,
              String.empty_append, String.append_assoc]
      · cases st
        simp [h1, PermState.append, PermState.empty, String.append_empty,
              String.empty_append, String.append_assoc]

/-- Folding the permissions loop from any starting state decomposes. -/
theorem updatePermissions_foldl (perms eperms : List (String × String))
    (ts : List String) :
    ∀ st : PermState,
      List.foldl (updatePermissionsStep perms eperms) st ts
        = st.append (updatePermissions perms eperms ts) := by
  induction ts with
  | nil =>
    intro st
    simp [updatePermissions, permAppend_empty_right]
  | cons t ts ih =>
    intro st
    have h1 : List.foldl (updatePermissionsStep perms eperms) st (t :: ts)
        = List.foldl (updatePermissionsStep perms eperms)
            (updatePermissionsStep perms eperms st t) ts := rfl
    have h2 : updatePermissions perms eperms (t :: ts)
        = List.foldl (updatePermissionsStep perms eperms)
            (updatePermissionsStep perms eperms PermState.empty t) ts := rfl
    rw [h1, ih, h2, ih, permStep_append, permAppend_assoc]

/-- Cons decomposition of the update_permissions loop. -/
theorem updatePermissions_cons (perms eperms : List (String × String))
    (t : String) (ts : List String) :
    updatePermissions perms eperms (t :: ts)
      = (updatePermissionsStep perms eperms PermState.empty t).append
          (updatePermissions perms eperms ts) := by
  have h2 : updatePermissions perms eperms (t :: ts)
      = List.foldl (updatePermissionsStep perms eperms)
          (updatePermissionsStep perms eperms PermState.empty t) ts := rfl
  rw [h2, updatePermissions_foldl]

/-- The names one permissions iteration classifies with disposition d. -/
theorem permStep_classifiedNames (perms eperms : List (String × String))
    (t : String) (d : Disposition) :
    classifiedNames (updatePermissionsStep perms eperms PermState.empty t).events d
      = if classifyTeam perms eperms t = some d then [t] else [] := by
  unfold updatePermissionsStep classifyTeam
  cases hex : dget eperms t with
  | none =>
    cases hcf : dget perms t with
    | none => simp [PermState.empty, classifiedNames]
    | some dp =>
      by_cases hd : Disposition.Added = d <;>
        simp [hd, PermState.empty, classifiedNames, List.filterMap]
  | some ep =>
    cases hcf : dget perms t with
    | none =>
      by_cases hd : Disposition.Removed = d <;>
        simp [hd, PermState.empty, classifiedNames, List.filterMap]
    | some dp =>
      by_cases h1 : ep ≠ dp
      · by_cases hd : Disposition.Edited = d <;>
          simp [h1, hd, PermState.empty, classifiedNames, List.filterMap]
      · by_cases hd : Disposition.Unchanged = d <;>
          simp [h1, hd, PermState.empty, classifiedNames, List.filterMap]

/-- The remote calls one permissions iteration issues. -/
theorem permStep_calls (perms eperms : List (String × String)) (t : String) :
    (updatePermissionsStep perms eperms PermState.empty t).calls
      = permCallOf perms eperms t := by
  unfold updatePermissionsStep permCallOf classifyTeam
  cases hex : dget eperms t with
  | none =>
    cases hcf : dget perms t with
    | none => simp [PermState.empty]
    | some dp => simp [PermState.empty]
  | some ep =>
    cases hcf : dget perms t with
    | none => simp [PermState.empty]
    | some dp =>
      by_cases h1 : ep ≠ dp
      · simp [h1, PermState.empty]
      · simp [h1, PermState.empty]

/-- Each permissions iteration contributes a well-formed trace block:
the classification first, then the call it triggers, if any. -/
theorem permStep_blockOk (perms eperms : List (String × String)) (t : String) :
    permBlockOk (permEventsOf perms eperms t) = true := by
  unfold permEventsOf updatePermissionsStep
  cases hex : dget eperms t with
  | none =>
    cases hcf : dget perms t with
    | none => simp [PermState.empty, permBlockOk]
    | some dp => simp [PermState.empty, permBlockOk, callForName]
  | some ep =>
    cases hcf : dget perms t with
    | none => simp [PermState.empty, permBlockOk, callForName]
    | some dp =>
      by_cases h1 : ep ≠ dp
      · simp [h1, PermState.empty, permBlockOk, callForName]
      · simp [h1, PermState.empty, permBlockOk]

/-- The permissions trace is the concatenation of the per-team blocks. -/
theorem updatePermissions_events (perms eperms : List (String × String))
    (ts : List String) :
    (updatePermissions perms eperms ts).events
      = ts.flatMap (permEventsOf perms eperms) := by
  induction ts with
  | nil => rfl
  | cons t ts ih =>
    rw [updatePermissions_cons]
    show (updatePermissionsStep perms eperms PermState.empty t).events ++ _ = _
    rw [ih, List.flatMap_cons]
    rfl

/-- The permissions calls are the concatenation of per-team calls. -/
theorem updatePermissions_calls (perms eperms : List (String × String))
    (ts : List String) :
    (updatePermissions perms eperms ts).calls
      = ts.flatMap (permCallOf perms eperms) := by
  induction ts with
  | nil => rfl
  | cons t ts ih =>
    rw [updatePermissions_cons]
    show (updatePermissionsStep perms eperms PermState.empty t).calls ++ _ = _
    rw [ih, List.flatMap_cons, permStep_calls]

/-- The names the permissions loop classifies with disposition d. -/
theorem updatePermissions_classifiedNames (perms eperms : List (String × String))
    (ts : List String) (d : Disposition) :
    classifiedNames (updatePermissions perms eperms ts).events d
      = ts.filter (fun t => decide (classifyTeam perms eperms t = some d)) := by
  induction ts with
  | nil => rfl
  | cons t ts ih =>
    rw [updatePermissions_cons]
    show classifiedNames (_ ++ _) d = _
    rw [classifiedNames_append, permStep_classifiedNames, ih, List.filter_cons]
    by_cases hm : classifyTeam perms eperms t = some d <;> simp [hm]

/-! Report-string lemmas for the secret redaction claim. -/

/-- Report fields of a concatenation are determined component-wise. -/
theorem reportFields_append_congr {a a2 b b2 : EnvState}
    (ha : a.reportFields = a2.reportFields) (hb : b.reportFields = b2.reportFields) :
    (a.append b).reportFields = (a2.append b2).reportFields := by
  cases a; cases a2; cases b; cases b2
  simp [EnvState.reportFields, EnvState.append] at ha hb ⊢
  obtain ⟨h1, h2, h3, h4, h5⟩ := ha
  obtain ⟨g1, g2, g3, g4, g5⟩ := hb
  simp [h1, h2, h3, h4, h5, g1, g2, g3, g4, g5]

/-- For secrets, one loop iteration's report lines do not depend on the
desired values, only on the key set (the existing snapshot being
all-marker). -/
theorem envStep_report_congr (cfg cfg2 ex : List (String × String)) (n : String)
    (hex : ∀ p ∈ ex, p.2 = "***")
    (hkeys : cfg.map Prod.fst = cfg2.map Prod.fst) :
    (updateEnvironmentStep Environment.secret cfg ex EnvState.empty n).reportFields
      = (updateEnvironmentStep Environment.secret cfg2 ex EnvState.empty n).reportFields := by
  have hsome := dget_isSome_congr cfg cfg2 hkeys n
  unfold updateEnvironmentStep
  cases hexn : dget ex n with
  | none =>
    cases hcf : dget cfg n with
    | none =>
      cases hcf2 : dget cfg2 n with
      | none => rfl
      | some cv2 => rw [hcf, hcf2] at hsome; simp at hsome
    | some cv =>
      cases hcf2 : dget cfg2 n with
      | none => rw [hcf, hcf2] at hsome; simp at hsome
      | some cv2 => simp [EnvState.reportFields, envLineShown]
  | some ev =>
    have hev : ev = "***" := by
      have := hex (n, ev) (dget_mem hexn)
      simpa using this
    cases hcf : dget cfg n with
    | none =>
      cases hcf2 : dget cfg2 n with
      | none => rfl
      | some cv2 => rw [hcf, hcf2] at hsome; simp at hsome
    | some cv =>
      cases hcf2 : dget cfg2 n with
      | none => rw [hcf, hcf2] at hsome; simp at hsome
      | some cv2 => simp [hev, EnvState.reportFields]

/-- For secrets, the whole loop's report strings do not depend on the
desired values, only on the key set. -/
theorem envLoop_report_congr (cfg cfg2 ex : List (String × String)) (ns : List String)
    (hex : ∀ p ∈ ex, p.2 = "***")
    (hkeys : cfg.map Prod.fst = cfg2.map Prod.fst) :
    (envLoop Environment.secret cfg ex ns).reportFields
      = (envLoop Environment.secret cfg2 ex ns).reportFields := by
  induction ns with
  | nil => rfl
  | cons m ns ih =>
    rw [envLoop_cons, envLoop_cons]
    exact reportFields_append_congr (envStep_report_congr cfg cfg2 ex m hex hkeys) ih

/-- The printed report is a function of the report fields. -/
theorem environmentReport_congr (env : Environment) {st st2 : EnvState}
    (h : st.reportFields = st2.reportFields) :
    environmentReport env st = environmentReport env st2 := by
  cases st; cases st2
  simp [EnvState.reportFields] at h
  obtain ⟨h1, h2, h3, h4, h5⟩ := h
  simp [environmentReport, h1, h2, h3, h4, h5]

/-! Classification helper lemmas. -/

/-- Every name on at least one side gets a disposition. -/
theorem classifyName_total (cfg ex : List (String × String)) (n : String)
    (h : (dget ex n).isSome ∨ (dget cfg n).isSome) :
    ∃ d, classifyName cfg ex n = some d := by
  unfold classifyName
  cases hex : dget ex n with
  | none =>
    cases hcf : dget cfg n with
    | none => rw [hex, hcf] at h; simp at h
    | some cv => exact ⟨Disposition.Added, rfl⟩
  | some ev =>
    cases hcf : dget cfg n with
    | none => exact ⟨Disposition.Removed, rfl⟩
    | some cv =>
      by_cases h1 : ev = "***"
      · exact ⟨Disposition.Overwritten, by simp [h1]⟩
      · by_cases h2 : ev ≠ cv
        · exact ⟨Disposition.Edited, by simp [h1, h2]⟩
        · exact ⟨Disposition.Unchanged, by simp [h1, h2]⟩

/-- Every team on at least one side gets a disposition. -/
theorem classifyTeam_total (perms eperms : List (String × String)) (t : String)
    (h : (dget eperms t).isSome ∨ (dget perms t).isSome) :
    ∃ d, classifyTeam perms eperms t = some d := by
  unfold classifyTeam
  cases hex : dget eperms t with
  | none =>
    cases hcf : dget perms t with
    | none => rw [hex, hcf] at h; simp at h
    | some dp => exact ⟨Disposition.Added, rfl⟩
  | some ep =>
    cases hcf : dget perms t with
    | none => exact ⟨Disposition.Removed, rfl⟩
    | some dp =>
      by_cases h1 : ep ≠ dp
      · exact ⟨Disposition.Edited, by simp [h1]⟩
      · exact ⟨Disposition.Unchanged, by simp [h1]⟩

/-- A name classified Removed is absent from the desired mapping. -/
theorem classifyName_removed {cfg ex : List (String × String)} {n : String}
    (h : classifyName cfg ex n = some Disposition.Removed) : dget cfg n = none := by
  cases hcf : dget cfg n with
  | none => rfl
  | some cv =>
    exfalso
    unfold classifyName at h
    cases hex : dget ex n with
    | none => rw [hex, hcf] at h; simp at h
    | some ev =>
      rw [hex, hcf] at h
      by_cases h1 : ev = "***"
      · simp [h1] at h
      · by_cases h2 : ev ≠ cv
        · simp [h1, h2] at h
        · simp [h1, h2] at h

/-- A team classified Removed is absent from the desired permissions. -/
theorem classifyTeam_removed {perms eperms : List (String × String)} {t : String}
    (h : classifyTeam perms eperms t = some Disposition.Removed) : dget perms t = none := by
  cases hcf : dget perms t with
  | none => rfl
  | some dp =>
    exfalso
    unfold classifyTeam at h
    cases hex : dget eperms t with
    | none => rw [hex, hcf] at h; simp at h
    | some ep =>
      rw [hex, hcf] at h
      by_cases h1 : ep ≠ dp
      · simp [h1] at h
      · simp [h1] at h

/-! Membership lemmas for to_add and the remote-call trace. -/

/-- What a changed entry tells about its name. -/
theorem changedEntry_eq_some {cfg ex : List (String × String)} {m : String}
    {p : String × String} (h : changedEntry cfg ex m = some p) :
    p.1 = m ∧ dget cfg m = some p.2
      ∧ (classifyName cfg ex m = some Disposition.Added
         ∨ classifyName cfg ex m = some Disposition.Edited
         ∨ classifyName cfg ex m = some Disposition.Overwritten) := by
  unfold changedEntry at h
  cases hc : classifyName cfg ex m with
  | none => rw [hc] at h; simp at h
  | some d =>
    cases hv : dget cfg m with
    | none => rw [hc, hv] at h; cases d <;> simp at h
    | some cv =>
      rw [hc, hv] at h
      cases d with
      | Added =>
        simp at h
        subst h
        exact ⟨rfl, rfl, Or.inl rfl⟩
      | Edited =>
        simp at h
        subst h
        exact ⟨rfl, rfl, Or.inr (Or.inl rfl)⟩
      | Overwritten =>
        simp at h
        subst h
        exact ⟨rfl, rfl, Or.inr (Or.inr rfl)⟩
      | Removed => simp at h
      | Unchanged => simp at h

/-- A changed disposition yields the corresponding to_add entry. -/
theorem changedEntry_of_classify {cfg ex : List (String × String)} {m cv : String}
    (hv : dget cfg m = some cv)
    (hc : classifyName cfg ex m = some Disposition.Added
          ∨ classifyName cfg ex m = some Disposition.Edited
          ∨ classifyName cfg ex m = some Disposition.Overwritten) :
    changedEntry cfg ex m = some (m, cv) := by
  unfold changedEntry
  rcases hc with hc | hc | hc <;> rw [hc, hv]

/-- Membership in the full run's to_add mapping. -/
theorem mem_updateEnvironment_to_add {env : Environment}
    {cfg ex : List (String × String)} {ns : List String} {p : String × String} :
    p ∈ (updateEnvironment env cfg ex ns).to_add
      ↔ p.1 ∈ ns ∧ dget cfg p.1 = some p.2
          ∧ (classifyName cfg ex p.1 = some Disposition.Added
             ∨ classifyName cfg ex p.1 = some Disposition.Edited
             ∨ classifyName cfg ex p.1 = some Disposition.Overwritten) := by
  rw [updateEnvironment_to_add, envLoop_to_add]
  constructor
  · intro h
    obtain ⟨m, hm, hme⟩ := List.mem_filterMap.mp h
    obtain ⟨h1, h2, h3⟩ := changedEntry_eq_some hme
    rw [h1]
    exact ⟨hm, h2, h3⟩
  · rintro ⟨hm, hv, hc⟩
    refine List.mem_filterMap.mpr ⟨p.1, hm, ?_⟩
    have := changedEntry_of_classify hv hc
    rw [this]

/-- Membership of a removal call in the full run's call trace. -/
theorem removeCall_mem_updateEnvironment {env e : Environment}
    {cfg ex : List (String × String)} {ns : List String} {n : String} :
    RemoteCall.removeEnvironmentValue e n ∈ (updateEnvironment env cfg ex ns).calls
      ↔ e = env ∧ n ∈ ns ∧ classifyName cfg ex n = some Disposition.Removed := by
  rw [updateEnvironment_calls, envLoop_calls]
  constructor
  · intro h
    rcases List.mem_append.mp h with h | h
    · obtain ⟨m, hm, heq⟩ := List.mem_map.mp h
      have hmf := List.mem_filter.mp hm
      simp only [RemoteCall.removeEnvironmentValue.injEq] at heq
      obtain ⟨he, hn⟩ := heq
      subst he; subst hn
      exact ⟨rfl, hmf.1, by simpa using hmf.2⟩
    · exfalso
      unfold addEnvironmentValues at h
      split at h <;> simp at h
  · rintro ⟨rfl, hn, hc⟩
    apply List.mem_append.mpr
    left
    exact List.mem_map.mpr ⟨n, List.mem_filter.mpr ⟨hn, by simp [hc]⟩, rfl⟩

/-- Any bulk set call in the trace carries exactly the loop's to_add. -/
theorem setCall_mem_updateEnvironment {env e : Environment}
    {cfg ex : List (String × String)} {ns : List String} {vs : List (String × String)}
    (h : RemoteCall.setValues e vs ∈ (updateEnvironment env cfg ex ns).calls) :
    e = env ∧ vs = (updateEnvironment env cfg ex ns).to_add := by
  rw [updateEnvironment_to_add]
  rw [updateEnvironment_calls, envLoop_calls] at h
  rcases List.mem_append.mp h with h | h
  · exfalso
    obtain ⟨m, _, heq⟩ := List.mem_map.mp h
    simp at heq
  · unfold addEnvironmentValues at h
    split at h
    · simp at h
    · simp only [List.mem_singleton, RemoteCall.setValues.injEq] at h
      exact h

/-! Small trace helpers. -/

/-- Removal calls are not set calls. -/
theorem filter_isSet_map_remove (env : Environment) (l : List String) :
    (l.map (RemoteCall.removeEnvironmentValue env)).filter RemoteCall.isSet = [] := by
  induction l with
  | nil => rfl
  | cons m l ih => simp [RemoteCall.isSet]

/-- Filtering removal calls out of removal calls keeps them all. -/
theorem filter_isRemove_map_remove (env : Environment) (l : List String) :
    (l.map (RemoteCall.removeEnvironmentValue env)).filter RemoteCall.isRemoveValue
      = l.map (RemoteCall.removeEnvironmentValue env) := by
  induction l with
  | nil => rfl
  | cons m l ih => simp [RemoteCall.isRemoveValue]

/-- The bulk set block consists of set calls only. -/
theorem filter_isSet_addEnvironmentValues (env : Environment)
    (vs : List (String × String)) :
    (addEnvironmentValues env vs).filter RemoteCall.isSet = addEnvironmentValues env vs := by
  unfold addEnvironmentValues
  split
  · rfl
  · simp [RemoteCall.isSet]

/-- The bulk set block contains no removal call. -/
theorem filter_isRemove_addEnvironmentValues (env : Environment)
    (vs : List (String × String)) :
    (addEnvironmentValues env vs).filter RemoteCall.isRemoveValue = [] := by
  unfold addEnvironmentValues
  split
  · rfl
  · simp [RemoteCall.isRemoveValue]

/-- A prefix without set-call events does not affect the
classified-after-set check. -/
theorem classifiedAfterSetCall_append (l l2 : List Event)
    (h : ∀ e ∈ l, Event.isSetCallEvent e = false) :
    classifiedAfterSetCall (l ++ l2) = classifiedAfterSetCall l2 := by
  induction l with
  | nil => rfl
  | cons e l ih =>
    have he := h e (List.mem_cons_self e l)
    have ih2 := ih (fun e2 he2 => h e2 (List.mem_cons_of_mem e he2))
    simp [classifiedAfterSetCall, he, ih2]

/-- The bulk set block has no classification after its set call. -/
theorem classifiedAfterSetCall_setBlock (env : Environment)
    (vs : List (String × String)) :
    classifiedAfterSetCall ((addEnvironmentValues env vs).map Event.call) = false := by
  unfold addEnvironmentValues
  split
  · rfl
  · simp [classifiedAfterSetCall]

/-- A prefix without set calls does not affect the
no-removal-after-set check. -/
theorem noRemoveAfterSet_append (l l2 : List RemoteCall)
    (h : ∀ c ∈ l, RemoteCall.isSet c = false) :
    noRemoveAfterSet (l ++ l2) = noRemoveAfterSet l2 := by
  induction l with
  | nil => rfl
  | cons c l ih =>
    have hc := h c (List.mem_cons_self c l)
    have ih2 := ih (fun c2 hc2 => h c2 (List.mem_cons_of_mem c hc2))
    simp [noRemoveAfterSet, hc, ih2]

/-- The bulk set block passes the no-removal-after-set check. -/
theorem noRemoveAfterSet_setBlock (env : Environment) (vs : List (String × String)) :
    noRemoveAfterSet (addEnvironmentValues env vs) = true := by
  unfold addEnvironmentValues
  split
  · rfl
  · simp [noRemoveAfterSet]

/-- The loop's calls are all removal calls, hence never set calls. -/
theorem envLoop_calls_not_set (env : Environment) (cfg ex : List (String × String))
    (ns : List String) :
    ∀ c ∈ (envLoop env cfg ex ns).calls, RemoteCall.isSet c = false := by
  rw [envLoop_calls]
  intro c hc
  obtain ⟨m, _, heq⟩ := List.mem_map.mp hc
  rw [← heq]
  rfl

/-- A removal-permission call can only come from a Removed team. -/
theorem permCallOf_remove_mem {perms eperms : List (String × String)} {m t : String}
    (h : RemoteCall.removePermission t ∈ permCallOf perms eperms m) :
    t = m ∧ classifyTeam perms eperms m = some Disposition.Removed := by
  unfold permCallOf at h
  cases hc : classifyTeam perms eperms m with
  | none => rw [hc] at h; simp at h
  | some d =>
    rw [hc] at h
    cases d with
    | Removed =>
      cases hv : dget perms m <;> rw [hv] at h <;> simp at h <;> exact ⟨h, rfl⟩
    | Added => cases hv : dget perms m <;> rw [hv] at h <;> simp at h
    | Edited => cases hv : dget perms m <;> rw [hv] at h <;> simp at h
    | Overwritten => cases hv : dget perms m <;> rw [hv] at h <;> simp at h
    | Unchanged => cases hv : dget perms m <;> rw [hv] at h <;> simp at h

/-! Claim theorems. -/

/-- C8: scalar field resolution returns the repo-level value when
present, otherwise the common-level value, and for a field absent from
both configs it fails with the missing-field error instead of
returning any default value. -/
theorem C8_get_field_resolution (repo common : List (String × FieldValue)) (f : String) :
    (∀ v, dget repo f = some v → get_field repo common f = Except.ok v)
    ∧ (∀ v, dget repo f = none → dget common f = some v →
        get_field repo common f = Except.ok v)
    ∧ (dget repo f = none → dget common f = none →
        get_field repo common f = Except.error ("No value found for field " ++ f)) := by
  refine ⟨?_, ?_, ?_⟩
  · intro v h
    simp [get_field, h]
  · intro v h1 h2
    simp [get_field, h1, h2]
  · intro h1 h2
    simp [get_field, h1, h2]

/-- Witness for C8 at concrete configurations. -/
theorem C8_get_field_resolution_witness :
    get_field [("org", FieldValue.str "acme")] [("org", FieldValue.str "shared")] "org"
      = Except.ok (FieldValue.str "acme")
    ∧ get_field [] [("org", FieldValue.str "shared")] "org"
      = Except.ok (FieldValue.str "shared")
    ∧ get_field ([] : List (String × FieldValue)) [] "org"
      = Except.error ("No value found for field " ++ "org") :=
  ⟨(C8_get_field_resolution _ _ _).1 _ (by decide),
   (C8_get_field_resolution _ _ _).2.1 _ (by decide) (by decide),
   (C8_get_field_resolution _ _ _).2.2 (by decide) (by decide)⟩

/-- C3 counterexample: _get_field performs no inheritance-token
splicing.  With repo collection containing the reserved token
"common.permissions" and common collection ["y", "z"], the claim says
the resolved collection is ["x", "y", "z"]; the code returns the repo
collection verbatim, token included. -/
theorem C3_counterexample :
    (get_field [("permissions", FieldValue.list ["common.permissions", "x"])]
        [("permissions", FieldValue.list ["y", "z"])] "permissions").toOption
      = some (FieldValue.list ["common.permissions", "x"])
    ∧ (get_field [("permissions", FieldValue.list ["common.permissions", "x"])]
        [("permissions", FieldValue.list ["y", "z"])] "permissions").toOption
      ≠ some (FieldValue.list ["x", "y", "z"]) := by
  constructor
  · rfl
  · decide

/-- C3 (amended): the resolver implements no inheritance token at all.
Whenever the repo config supplies a value for a field — including a
collection containing the token "common.<field>" — that value is
returned verbatim, with nothing removed and nothing from the common
config spliced in. -/
theorem C3_no_inheritance_token (repo common : List (String × FieldValue))
    (f : String) (v : FieldValue) (h : dget repo f = some v) :
    get_field repo common f = Except.ok v := by
  simp [get_field, h]

/-- Witness for (amended) C3 at the token-bearing configuration. -/
theorem C3_no_inheritance_token_witness :
    get_field [("permissions", FieldValue.list ["common.permissions", "x"])]
        [("permissions", FieldValue.list ["y", "z"])] "permissions"
      = Except.ok (FieldValue.list ["common.permissions", "x"]) :=
  C3_no_inheritance_token _ _ _ _ (by decide)

/-- C1: in both reconciliations, every name in the union of existing
and desired keys is classified into exactly one disposition bucket. -/
theorem C1_partition :
    (∀ (env : Environment) (cfg ex : List (String × String)) (ns : List String)
        (n : String),
        ((dget ex n).isSome ∨ (dget cfg n).isSome) → n ∈ ns →
        ∃! d : Disposition, d ∈ allDispositions
          ∧ n ∈ classifiedNames (updateEnvironment env cfg ex ns).events d)
    ∧ (∀ (perms eperms : List (String × String)) (ts : List String) (t : String),
        ((dget eperms t).isSome ∨ (dget perms t).isSome) → t ∈ ts →
        ∃! d : Disposition, d ∈ allDispositions
          ∧ t ∈ classifiedNames (updatePermissions perms eperms ts).events d) := by
  constructor
  · intro env cfg ex ns n hu hn
    obtain ⟨d0, hd0⟩ := classifyName_total cfg ex n hu
    refine ⟨d0, ⟨mem_allDispositions d0, ?_⟩, ?_⟩
    · rw [updateEnvironment_classifiedNames]
      exact List.mem_filter.mpr ⟨hn, by simp [hd0]⟩
    · intro d2 hd2
      obtain ⟨_, hmem⟩ := hd2
      rw [updateEnvironment_classifiedNames] at hmem
      have h2 := (List.mem_filter.mp hmem).2
      simp only [decide_eq_true_eq] at h2
      rw [hd0] at h2
      exact (Option.some.inj h2).symm
  · intro perms eperms ts t hu ht
    obtain ⟨d0, hd0⟩ := classifyTeam_total perms eperms t hu
    refine ⟨d0, ⟨mem_allDispositions d0, ?_⟩, ?_⟩
    · rw [updatePermissions_classifiedNames]
      exact List.mem_filter.mpr ⟨ht, by simp [hd0]⟩
    · intro d2 hd2
      obtain ⟨_, hmem⟩ := hd2
      rw [updatePermissions_classifiedNames] at hmem
      have h2 := (List.mem_filter.mp hmem).2
      simp only [decide_eq_true_eq] at h2
      rw [hd0] at h2
      exact (Option.some.inj h2).symm

/-- Witness for C1 at the spec's permission scenario: existing
teamA:write, desired teamA:write and teamB:admin. -/
theorem C1_partition_witness :
    ∃! d : Disposition, d ∈ allDispositions
      ∧ "teamB" ∈ classifiedNames
          (updatePermissions [("teamA", "write"), ("teamB", "admin")]
            [("teamA", "write")] ["teamA", "teamB"]).events d :=
  C1_partition.2 _ _ _ _ (by decide) (by decide)

/-- C2 counterexample: for a variable whose observed literal value is
the marker string "***" and differs from the desired value, the claim
says the name is classified Edited; the code classifies it Overwritten
(the marker test fires on the literal value). -/
theorem C2_counterexample :
    classifiedNames
        (updateEnvironment Environment.«variable» [("X", "abc")] [("X", "***")] ["X"]).events
        Disposition.Edited = []
    ∧ classifiedNames
        (updateEnvironment Environment.«variable» [("X", "abc")] [("X", "***")] ["X"]).events
        Disposition.Overwritten = ["X"] := by
  constructor
  · rfl
  · rfl

/-- C2 (amended): for a name present on both sides, if the observed
value equals the marker string "***" (always the case for secrets, and
also possible for a variable stored as the literal "***") it is
classified Overwritten and the desired value is applied; if the
observed value is distinct from the marker and differs from the
desired value it is classified Edited and applied; if the observed
value is distinct from the marker and equals the desired value it is
classified Unchanged and no remote call concerns it. -/
theorem C2_keyed_values_amended (env : Environment)
    (cfg ex : List (String × String)) (ns : List String) (n : String) :
    (∀ cv, dget ex n = some "***" → dget cfg n = some cv → n ∈ ns →
      n ∈ classifiedNames (updateEnvironment env cfg ex ns).events Disposition.Overwritten
      ∧ (n, cv) ∈ (updateEnvironment env cfg ex ns).to_add)
    ∧ (∀ ev cv, dget ex n = some ev → ev ≠ "***" → dget cfg n = some cv → ev ≠ cv →
        n ∈ ns →
        n ∈ classifiedNames (updateEnvironment env cfg ex ns).events Disposition.Edited
        ∧ (n, cv) ∈ (updateEnvironment env cfg ex ns).to_add)
    ∧ (∀ ev, dget ex n = some ev → ev ≠ "***" → dget cfg n = some ev → n ∈ ns →
        n ∈ classifiedNames (updateEnvironment env cfg ex ns).events Disposition.Unchanged
        ∧ (∀ v, (n, v) ∉ (updateEnvironment env cfg ex ns).to_add)
        ∧ (∀ e, RemoteCall.removeEnvironmentValue e n ∉ (updateEnvironment env cfg ex ns).calls)
        ∧ (∀ e vs, RemoteCall.setValues e vs ∈ (updateEnvironment env cfg ex ns).calls →
            ∀ v, (n, v) ∉ vs)) := by
  refine ⟨?_, ?_, ?_⟩
  · intro cv hex hcf hn
    have hc : classifyName cfg ex n = some Disposition.Overwritten := by
      unfold classifyName
      rw [hex, hcf]
      simp
    constructor
    · rw [updateEnvironment_classifiedNames]
      exact List.mem_filter.mpr ⟨hn, by simp [hc]⟩
    · exact mem_updateEnvironment_to_add.mpr ⟨hn, hcf, Or.inr (Or.inr hc)⟩
  · intro ev cv hex hev hcf hne hn
    have hc : classifyName cfg ex n = some Disposition.Edited := by
      unfold classifyName
      rw [hex, hcf]
      simp [hev, hne]
    constructor
    · rw [updateEnvironment_classifiedNames]
      exact List.mem_filter.mpr ⟨hn, by simp [hc]⟩
    · exact mem_updateEnvironment_to_add.mpr ⟨hn, hcf, Or.inr (Or.inl hc)⟩
  · intro ev hex hev hcf hn
    have hc : classifyName cfg ex n = some Disposition.Unchanged := by
      unfold classifyName
      rw [hex, hcf]
      simp [hev]
    have hnotadd : ∀ v, (n, v) ∉ (updateEnvironment env cfg ex ns).to_add := by
      intro v hmem
      obtain ⟨_, _, hor⟩ := mem_updateEnvironment_to_add.mp hmem
      rcases hor with h | h | h <;> rw [hc] at h <;> simp at h
    refine ⟨?_, hnotadd, ?_, ?_⟩
    · rw [updateEnvironment_classifiedNames]
      exact List.mem_filter.mpr ⟨hn, by simp [hc]⟩
    · intro e hmem
      obtain ⟨_, _, hrem⟩ := removeCall_mem_updateEnvironment.mp hmem
      rw [hc] at hrem
      simp at hrem
    · intro e vs hmem v hv
      obtain ⟨_, hvs⟩ := setCall_mem_updateEnvironment hmem
      rw [hvs] at hv
      exact hnotadd v hv

/-- Witness for (amended) C2 at the spec's secret scenario: existing
API_KEY observed as the marker, desired API_KEY = abc123. -/
theorem C2_keyed_values_amended_witness :
    "API_KEY" ∈ classifiedNames
        (updateEnvironment Environment.secret [("API_KEY", "abc123")]
          [("API_KEY", "***")] ["API_KEY"]).events Disposition.Overwritten
    ∧ ("API_KEY", "abc123") ∈ (updateEnvironment Environment.secret
        [("API_KEY", "abc123")] [("API_KEY", "***")] ["API_KEY"]).to_add :=
  (C2_keyed_values_amended Environment.secret _ _ _ _).1 "abc123"
    (by decide) (by decide) (by decide)

/-- C4 counterexample: a variable whose existing observed value equals
its desired value "***" (the existing and desired mappings here are
the identical list, so the states agree key-by-key) still triggers a
remote set call, because the marker test treats it as a secret-style
overwrite; the claim requires zero calls for variables in this
situation. -/
theorem C4_counterexample :
    (updateEnvironment Environment.«variable» [("X", "***")] [("X", "***")] ["X"]).calls
      = [RemoteCall.setValues Environment.«variable» [("X", "***")]] :=
  rfl

/-- C4 (amended): when the fetched existing state equals the desired
state key-by-key, a permissions run issues no remote call, and a
variables run issues no remote call provided no desired variable value
is the literal marker string "***" (such a variable is pessimistically
re-applied like a secret). -/
theorem C4_idempotence_amended :
    (∀ (perms eperms : List (String × String)) (ts : List String),
        (∀ t, dget eperms t = dget perms t) →
        (updatePermissions perms eperms ts).calls = [])
    ∧ (∀ (cfg ex : List (String × String)) (ns : List String),
        (∀ n, dget ex n = dget cfg n) →
        (∀ p ∈ cfg, p.2 ≠ "***") →
        (updateEnvironment Environment.«variable» cfg ex ns).calls = []) := by
  constructor
  · intro perms eperms ts h
    rw [updatePermissions_calls]
    apply List.flatMap_eq_nil_iff.mpr
    intro t _
    unfold permCallOf classifyTeam
    rw [h t]
    cases hp : dget perms t with
    | none => simp
    | some dp => simp
  · intro cfg ex ns h hm
    have hcl : ∀ n, classifyName cfg ex n = some Disposition.Unchanged
        ∨ classifyName cfg ex n = none := by
      intro n
      unfold classifyName
      rw [h n]
      cases hc : dget cfg n with
      | none => right; rfl
      | some cv =>
        left
        have hne : cv ≠ "***" := by
          have := hm (n, cv) (dget_mem hc)
          simpa using this
        simp [hne]
    have hta : (envLoop Environment.«variable» cfg ex ns).to_add = [] := by
      rw [envLoop_to_add]
      apply List.filterMap_eq_nil_iff.mpr
      intro n _
      unfold changedEntry
      rcases hcl n with hc | hc <;> rw [hc]
    have hlc : (envLoop Environment.«variable» cfg ex ns).calls = [] := by
      rw [envLoop_calls]
      have : ns.filter
          (fun m => decide (classifyName cfg ex m = some Disposition.Removed)) = [] := by
        apply List.filter_eq_nil_iff.mpr
        intro m _
        rcases hcl m with hc | hc <;> simp [hc]
      rw [this]
      rfl
    rw [updateEnvironment_calls, hta, hlc]
    rfl

/-- Witness for (amended) C4: converged permission and variable states
trigger no remote call. -/
theorem C4_idempotence_amended_witness :
    (updatePermissions [("teamA", "write")] [("teamA", "write")] ["teamA"]).calls = []
    ∧ (updateEnvironment Environment.«variable» [("ENV", "prod")] [("ENV", "prod")]
        ["ENV"]).calls = [] :=
  ⟨C4_idempotence_amended.1 _ _ _ (fun _ => rfl),
   C4_idempotence_amended.2 _ _ _ (fun _ => rfl) (by decide)⟩

/-- C5 counterexample: two changed entries produce a single bulk set
call carrying both, not one remote set call per changed entry. -/
theorem C5_counterexample :
    (updateEnvironment Environment.«variable» [("A", "1"), ("B", "2")] [] ["A", "B"]).to_add
      = [("A", "1"), ("B", "2")]
    ∧ (updateEnvironment Environment.«variable» [("A", "1"), ("B", "2")] [] ["A", "B"]).calls
      = [RemoteCall.setValues Environment.«variable» [("A", "1"), ("B", "2")]] :=
  ⟨rfl, rfl⟩

/-- C5 (amended): the changed entries (Added, Edited, Overwritten) are
applied through exactly one bulk set call carrying the whole to_add
mapping, issued only when to_add is non-empty; removals remain
per-name, one removal call per name classified Removed, in order. -/
theorem C5_bulk_apply_amended (env : Environment) (cfg ex : List (String × String))
    (ns : List String) :
    (updateEnvironment env cfg ex ns).calls.filter RemoteCall.isSet
      = (if (updateEnvironment env cfg ex ns).to_add = [] then []
         else [RemoteCall.setValues env (updateEnvironment env cfg ex ns).to_add])
    ∧ (updateEnvironment env cfg ex ns).calls.filter RemoteCall.isRemoveValue
      = (classifiedNames (updateEnvironment env cfg ex ns).events Disposition.Removed).map
          (RemoteCall.removeEnvironmentValue env) := by
  constructor
  · rw [updateEnvironment_calls, updateEnvironment_to_add, List.filter_append,
        envLoop_calls, filter_isSet_map_remove, filter_isSet_addEnvironmentValues]
    rw [addEnvironmentValues]
    simp
  · rw [updateEnvironment_calls, List.filter_append, envLoop_calls,
        filter_isRemove_map_remove, filter_isRemove_addEnvironmentValues,
        updateEnvironment_classifiedNames]
    simp

/-- C6 counterexample: with two names to remove, the first removal
call is issued while classification of the union is still in progress
(a classification event follows a remote call in the trace). -/
theorem C6_counterexample :
    classifiedAfterAnyCall
      (updateEnvironment Environment.«variable» [] [("A", "x"), ("B", "y")]
        ["A", "B"]).events = true :=
  rfl

/-- C6 (amended): the diff is computed against the single fetched
snapshot, and in update_environment the bulk set call is issued only
after every name is classified (no classification event follows it);
but removal calls — and in update_permissions all apply/remove calls —
are issued immediately as each name is classified: the permission
trace decomposes team by team into blocks of a classification followed
by the call it triggers, if any. -/
theorem C6_fetch_classify_order_amended :
    (∀ (env : Environment) (cfg ex : List (String × String)) (ns : List String),
        classifiedAfterSetCall (updateEnvironment env cfg ex ns).events = false)
    ∧ (∀ (perms eperms : List (String × String)) (ts : List String),
        (updatePermissions perms eperms ts).events
          = ts.flatMap (permEventsOf perms eperms)
        ∧ ∀ t, permBlockOk (permEventsOf perms eperms t) = true) := by
  constructor
  · intro env cfg ex ns
    rw [updateEnvironment_events,
        classifiedAfterSetCall_append _ _ (envLoop_events_no_set env cfg ex ns),
        classifiedAfterSetCall_setBlock]
  · intro perms eperms ts
    exact ⟨updatePermissions_events perms eperms ts,
           fun t => permStep_blockOk perms eperms t⟩

/-- C7: redaction of the secret report.  Under the secret fetch
contract (every observed existing value is the opaque marker), the
report printed by update_environment depends only on the key sets, not
on the configured secret values: any two desired secret mappings with
the same names — in particular a mapping and its fully redacted copy —
produce identical report text, and hence the report renders secret
values only as the marker and cannot contain text derived from any
configured secret value. -/
theorem C7_redaction (cfg cfg2 ex : List (String × String)) (ns : List String)
    (hex : ∀ p ∈ ex, p.2 = "***")
    (hkeys : cfg.map Prod.fst = cfg2.map Prod.fst) :
    environmentReport Environment.secret
        (updateEnvironment Environment.secret cfg ex ns)
      = environmentReport Environment.secret
        (updateEnvironment Environment.secret cfg2 ex ns) := by
  apply environmentReport_congr
  rw [updateEnvironment_reportFields, updateEnvironment_reportFields]
  exact envLoop_report_congr cfg cfg2 ex ns hex hkeys

/-- Witness for C7: the report for a real secret value equals the
report for the fully redacted configuration. -/
theorem C7_redaction_witness :
    environmentReport Environment.secret
        (updateEnvironment Environment.secret [("API_KEY", "abc123")]
          [("API_KEY", "***")] ["API_KEY"])
      = environmentReport Environment.secret
        (updateEnvironment Environment.secret (redactValues [("API_KEY", "abc123")])
          [("API_KEY", "***")] ["API_KEY"]) :=
  C7_redaction _ _ _ _ (by decide) (by decide)

/-- C9: reconciliation never deletes a desired entry: no removal call
is issued for a name present in the desired mapping, in either
reconciliation. -/
theorem C9_no_desired_removal :
    (∀ (env e : Environment) (cfg ex : List (String × String)) (ns : List String)
        (n : String),
        (dget cfg n).isSome →
        RemoteCall.removeEnvironmentValue e n ∉ (updateEnvironment env cfg ex ns).calls)
    ∧ (∀ (perms eperms : List (String × String)) (ts : List String) (t : String),
        (dget perms t).isSome →
        RemoteCall.removePermission t ∉ (updatePermissions perms eperms ts).calls) := by
  constructor
  · intro env e cfg ex ns n hs hmem
    obtain ⟨_, _, hc⟩ := removeCall_mem_updateEnvironment.mp hmem
    rw [classifyName_removed hc] at hs
    simp at hs
  · intro perms eperms ts t hs hmem
    rw [updatePermissions_calls] at hmem
    obtain ⟨m, _, hcall⟩ := List.mem_flatMap.mp hmem
    obtain ⟨rfl, hc⟩ := permCallOf_remove_mem hcall
    rw [classifyTeam_removed hc] at hs
    simp at hs

/-- Witness for C9: a desired variable and a desired team permission
are never the subject of a removal call. -/
theorem C9_no_desired_removal_witness :
    RemoteCall.removeEnvironmentValue Environment.«variable» "ENV"
      ∉ (updateEnvironment Environment.«variable» [("ENV", "prod")] [] ["ENV"]).calls
    ∧ RemoteCall.removePermission "teamB"
      ∉ (updatePermissions [("teamB", "admin")] [] ["teamB"]).calls :=
  ⟨C9_no_desired_removal.1 _ _ _ _ _ _ (by decide),
   C9_no_desired_removal.2 _ _ _ _ (by decide)⟩

/-- C10: within one update_environment run, all removal calls precede
the bulk set call; add_environment_values on an empty mapping issues
no remote call; and when to_add is empty no set call appears at all. -/
theorem C10_removes_before_set :
    (∀ (env : Environment) (cfg ex : List (String × String)) (ns : List String),
        noRemoveAfterSet (updateEnvironment env cfg ex ns).calls = true)
    ∧ (∀ env : Environment, addEnvironmentValues env [] = [])
    ∧ (∀ (env : Environment) (cfg ex : List (String × String)) (ns : List String),
        (updateEnvironment env cfg ex ns).to_add = [] →
        ∀ (e : Environment) (vs : List (String × String)),
          RemoteCall.setValues e vs ∉ (updateEnvironment env cfg ex ns).calls) := by
  refine ⟨?_, fun _ => rfl, ?_⟩
  · intro env cfg ex ns
    rw [updateEnvironment_calls,
        noRemoveAfterSet_append _ _ (envLoop_calls_not_set env cfg ex ns),
        noRemoveAfterSet_setBlock]
  · intro env cfg ex ns h e vs hmem
    obtain ⟨_, hvs⟩ := setCall_mem_updateEnvironment hmem
    rw [h] at hvs
    subst hvs
    rw [updateEnvironment_to_add] at h
    rw [updateEnvironment_calls, h] at hmem
    rcases List.mem_append.mp hmem with h2 | h2
    · rw [envLoop_calls] at h2
      obtain ⟨m, _, heq⟩ := List.mem_map.mp h2
      simp at heq
    · simp [addEnvironmentValues] at h2

/-- Witness for C10 at a converged run: no set call when to_add is
empty. -/
theorem C10_removes_before_set_witness :
    noRemoveAfterSet
      (updateEnvironment Environment.«variable» [("A", "1")] [("B", "2")]
        ["A", "B"]).calls = true
    ∧ addEnvironmentValues Environment.secret [] = []
    ∧ RemoteCall.setValues Environment.«variable» []
        ∉ (updateEnvironment Environment.«variable» [("A", "1")] [("A", "1")] ["A"]).calls :=
  ⟨C10_removes_before_set.1 _ _ _ _, C10_removes_before_set.2.1 _,
   C10_removes_before_set.2.2 _ _ _ _ (by decide) _ _⟩
